import Mathlib

/-!
Verification development for the pomo log analyser (src/pomo.py).

The embedding models the `report` analysis pipeline: stripping and
filtering log lines, truncating to whole three-line records, parsing
timestamps in the strptime format `%Y/%m/%d %H:%M:%S`, grouping records
into the ordered `pomos` mapping keyed by (task, end date), folding into
`join_tasks` keyed by task, and deriving the aggregate views
(all tasks, today, totals, longest task, last-days histogram).
Dictionaries with insertion order (OrderedDict and the insertion-ordered
builtin dict) are modelled as association lists updated in place.
Durations (timedelta values built from whole seconds) are modelled as
second counts in Nat.
-/

/-- Calendar date, as produced by Python `datetime.date`. -/
structure Date where
  year : Nat
  month : Nat
  day : Nat
deriving DecidableEq, Repr

/-- A parsed `datetime.datetime` value (whole-second resolution, which is
all the strptime format `%Y/%m/%d %H:%M:%S` can produce). -/
structure DateTime where
  date : Date
  hour : Nat
  minute : Nat
  second : Nat
deriving DecidableEq, Repr

/-- Numeric value of an ASCII digit character. -/
def digVal (c : Char) : Nat := c.toNat - 48

/-- Characters treated as whitespace by Python `str.strip` and by the
regex class backslash-s (restricted to the ASCII range, which is all the
log format uses). -/
def isSpaceC (c : Char) : Bool :=
  c == ' ' || c == '\t' || c == '\n' || c == '\x0d' || c == '\x0b' || c == '\x0c'

/-- Consume the strptime directive `%Y`: exactly four digits. -/
def parseY : List Char → Option (Nat × List Char)
  | a :: b :: c :: d :: rest =>
    if a.isDigit && b.isDigit && c.isDigit && d.isDigit then
      some (digVal a * 1000 + digVal b * 100 + digVal c * 10 + digVal d, rest)
    else none
  | _ => none

/-- Consume the strptime directive `%m`, whose pattern tries, in order,
a value 10 to 12, a zero-padded value 01 to 09, then a single digit 1 to 9. -/
def parseMon : List Char → Option (Nat × List Char)
  | a :: b :: rest =>
    if a = '1' ∧ ('0' ≤ b ∧ b ≤ '2') then some (10 + digVal b, rest)
    else if a = '0' ∧ ('1' ≤ b ∧ b ≤ '9') then some (digVal b, rest)
    else if '1' ≤ a ∧ a ≤ '9' then some (digVal a, b :: rest)
    else none
  | [a] => if '1' ≤ a ∧ a ≤ '9' then some (digVal a, []) else none
  | [] => none

/-- Consume the strptime directive `%d`: 30 or 31, then 10 to 29,
then zero-padded 01 to 09, then a single digit 1 to 9. -/
def parseDayF : List Char → Option (Nat × List Char)
  | a :: b :: rest =>
    if a = '3' ∧ ('0' ≤ b ∧ b ≤ '1') then some (30 + digVal b, rest)
    else if ('1' ≤ a ∧ a ≤ '2') ∧ b.isDigit then some (digVal a * 10 + digVal b, rest)
    else if a = '0' ∧ ('1' ≤ b ∧ b ≤ '9') then some (digVal b, rest)
    else if '1' ≤ a ∧ a ≤ '9' then some (digVal a, b :: rest)
    else none
  | [a] => if '1' ≤ a ∧ a ≤ '9' then some (digVal a, []) else none
  | [] => none

/-- Consume the strptime directive `%H`: 20 to 23, then a two-digit value
00 to 19, then any single digit. -/
def parseHourF : List Char → Option (Nat × List Char)
  | a :: b :: rest =>
    if a = '2' ∧ ('0' ≤ b ∧ b ≤ '3') then some (20 + digVal b, rest)
    else if ('0' ≤ a ∧ a ≤ '1') ∧ b.isDigit then some (digVal a * 10 + digVal b, rest)
    else if a.isDigit then some (digVal a, b :: rest)
    else none
  | [a] => if a.isDigit then some (digVal a, []) else none
  | [] => none

/-- Consume the strptime directive `%M`: a two-digit value 00 to 59,
then any single digit. -/
def parseMinF : List Char → Option (Nat × List Char)
  | a :: b :: rest =>
    if ('0' ≤ a ∧ a ≤ '5') ∧ b.isDigit then some (digVal a * 10 + digVal b, rest)
    else if a.isDigit then some (digVal a, b :: rest)
    else none
  | [a] => if a.isDigit then some (digVal a, []) else none
  | [] => none

/-- Consume the strptime directive `%S`: a leap-second value 60 or 61,
then a two-digit value 00 to 59, then any single digit. -/
def parseSecF : List Char → Option (Nat × List Char)
  | a :: b :: rest =>
    if a = '6' ∧ ('0' ≤ b ∧ b ≤ '1') then some (60 + digVal b, rest)
    else if ('0' ≤ a ∧ a ≤ '5') ∧ b.isDigit then some (digVal a * 10 + digVal b, rest)
    else if a.isDigit then some (digVal a, b :: rest)
    else none
  | [a] => if a.isDigit then some (digVal a, []) else none
  | [] => none

/-- A literal whitespace character in a strptime format matches one or
more whitespace characters. -/
def parseWs : List Char → Option (List Char)
  | c :: rest => if isSpaceC c then some (rest.dropWhile isSpaceC) else none
  | [] => none

/-- Match one literal character of the format string. -/
def expectC (e : Char) : List Char → Option (List Char)
  | c :: rest => if c = e then some rest else none
  | [] => none

/-- Gregorian leap-year rule, as in `calendar.isleap`. -/
def isLeap (y : Nat) : Bool :=
  y % 4 == 0 && (y % 100 != 0 || y % 400 == 0)

/-- Number of days in a month, as validated by the `datetime` constructor. -/
def monthLen (y m : Nat) : Nat :=
  if m = 2 then (if isLeap y then 29 else 28)
  else if m = 4 ∨ m = 6 ∨ m = 9 ∨ m = 11 then 30
  else 31

/-- Days in the months of year `y` strictly before month `m`. -/
def daysBeforeMonth (y m : Nat) : Nat :=
  (List.range (m - 1)).foldl (fun a i => a + monthLen y (i + 1)) 0

/-- Proleptic Gregorian ordinal of a date, as in `datetime.date.toordinal`;
date subtraction in Python returns the difference of these ordinals. -/
def toOrdinal (d : Date) : Nat :=
  (d.year - 1) * 365 + (d.year - 1) / 4 - (d.year - 1) / 100 + (d.year - 1) / 400
    + daysBeforeMonth d.year d.month + d.day

/-- Whole-day difference `(today - d).days` between two dates. -/
def daysAgo (today d : Date) : Int :=
  (toOrdinal today : Int) - (toOrdinal d : Int)

/-- `load_time` of pomo.py: `datetime.datetime.strptime(s, '%Y/%m/%d %H:%M:%S')`.
The directives are matched in sequence against the whole string, and the
resulting field values are validated as the `datetime` constructor does:
year at least 1, day within the month, second at most 59 (the month, hour
and minute ranges are already enforced by the directive patterns). -/
def load_time (s : String) : Option DateTime := do
  let (y, r1) ← parseY s.toList
  let r2 ← expectC '/' r1
  let (mo, r3) ← parseMon r2
  let r4 ← expectC '/' r3
  let (dy, r5) ← parseDayF r4
  let r6 ← parseWs r5
  let (hh, r7) ← parseHourF r6
  let r8 ← expectC ':' r7
  let (mi, r9) ← parseMinF r8
  let r10 ← expectC ':' r9
  let (ss, r11) ← parseSecF r10
  if r11 = [] ∧ 1 ≤ y ∧ dy ≤ monthLen y mo ∧ ss ≤ 59 then
    some (DateTime.mk (Date.mk y mo dy) hh mi ss)
  else none

/-- Python `str.strip()` on a log line. -/
def pyStrip (s : String) : String :=
  String.mk (((s.toList.dropWhile isSpaceC).reverse.dropWhile isSpaceC).reverse)

/-- The filter `l and not l.startswith('#')` applied after stripping:
keep nonempty lines whose first character is not a hash. -/
def keepLine (l : String) : Bool :=
  match l.toList with
  | [] => false
  | c :: _ => c != '#'

/-- Lines 156 to 157 of report: strip every line, then drop blank lines
and comment lines. -/
def sigLines (data : List String) : List String :=
  (data.map pyStrip).filter keepLine

/-- Lines 159 to 163 of report: when the significant line count is not a
multiple of three, drop the trailing remainder (a warning is printed and
processing continues). -/
def truncate3 (l : List String) : List String :=
  if l.length % 3 ≠ 0 then l.take (l.length - l.length % 3) else l

/-- `group(data, 3)`: consecutive non-overlapping triples in list order,
discarding an incomplete trailing tuple. -/
def toTriples {α : Type} : List α → List (α × α × α)
  | a :: b :: c :: rest => (a, b, c) :: toTriples rest
  | _ => []

/-- The (task, start, end) triples that the report loop iterates over. -/
def triplesOf (data : List String) : List (String × String × String) :=
  toTriples (truncate3 (sigLines data))

/-- One parsed session record. -/
structure SessionRecord where
  task : String
  start : DateTime
  endTime : DateTime
deriving DecidableEq, Repr

/-- Grouping key `(task, end.date())` of a record. -/
def recKey (r : SessionRecord) : String × Date :=
  (r.task, r.endTime.date)

/-- Value stored per group: `{'nr': ..., 'time': ...}` with the time held
in seconds. -/
structure Entry where
  nr : Nat
  time : Nat
deriving DecidableEq, Repr

/-- The `pomos` ordered mapping keyed by (task, end date). -/
abbrev Pomos := List ((String × Date) × Entry)

/-- Update an insertion-ordered mapping at key `k` by `f`, starting from
`v0` when the key is absent; a fresh key is appended at the end, an
existing key keeps its position. -/
def updA {κ α : Type} [DecidableEq κ] (k : κ) (f : α → α) (v0 : α) :
    List (κ × α) → List (κ × α)
  | [] => [(k, f v0)]
  | (k1, v) :: rest =>
    if k1 = k then (k1, f v) :: rest else (k1, v) :: updA k f v0 rest

/-- Lookup in an insertion-ordered mapping. -/
def lookupA {κ α : Type} [DecidableEq κ] (k : κ) : List (κ × α) → Option α
  | [] => none
  | (k1, v) :: rest => if k1 = k then some v else lookupA k rest

/-- One iteration of the main loop of report (lines 170 to 183) on an
already parsed record: create the group on first use, then add one to its
count and `TASK_DURATION` seconds to its time, and add to the running
total for today when the record ends today. -/
def stepPomos (td : Nat) (today : Date) (st : Pomos × Nat) (r : SessionRecord) :
    Pomos × Nat :=
  (updA (recKey r) (fun e => Entry.mk (e.nr + 1) (e.time + td)) (Entry.mk 0 0) st.1,
   if r.endTime.date = today then st.2 + td else st.2)

/-- Parse the two timestamp fields of one triple (line 171 to 172); a
failure of either field aborts the whole analysis. -/
def parseTriple (t : String × String × String) : Option SessionRecord := do
  let st ← load_time t.2.1
  let en ← load_time t.2.2
  some (SessionRecord.mk t.1 st en)

/-- The main loop of report as written: parse each triple and accumulate,
stopping the whole run at the first parse failure. -/
def accumLoop (td : Nat) (today : Date) (st : Pomos × Nat)
    (t : String × String × String) : Option (Pomos × Nat) :=
  match parseTriple t with
  | none => none
  | some r => some (stepPomos td today st r)

/-- `pomos` and `total_today` after the main loop over all triples. -/
def pomosLoop (td : Nat) (today : Date) (ts : List (String × String × String)) :
    Option (Pomos × Nat) :=
  ts.foldlM (accumLoop td today) (([], 0) : Pomos × Nat)

/-- Parsing of all triples on its own. -/
def parseRecs : List (String × String × String) → Option (List SessionRecord)
  | [] => some []
  | t :: ts => do
    let r ← parseTriple t
    let rs ← parseRecs ts
    some (r :: rs)

/-- The pure accumulation over already parsed records. -/
def pomosAndToday (td : Nat) (today : Date) (recs : List SessionRecord) :
    Pomos × Nat :=
  recs.foldl (stepPomos td today) (([], 0) : Pomos × Nat)

/-- The `pomos` mapping produced by a record sequence. -/
def pomosOf (td : Nat) (today : Date) (recs : List SessionRecord) : Pomos :=
  (pomosAndToday td today recs).1

/-- One step of the join loop (lines 187 to 194): on the first date-group
of a task the entry is copied, later groups of the same task add their
count and time in place. -/
def joinStep (acc : List (String × Entry)) (p : (String × Date) × Entry) :
    List (String × Entry) :=
  match lookupA p.1.1 acc with
  | none => acc ++ [(p.1.1, p.2)]
  | some _ =>
    updA p.1.1 (fun je => Entry.mk (je.nr + p.2.nr) (je.time + p.2.time))
      (Entry.mk 0 0) acc

/-- The `join_tasks` mapping: date groups folded by task name, in first
occurrence order. -/
def joinOf (ps : Pomos) : List (String × Entry) :=
  ps.foldl joinStep []

/-- Line 196: `all_tasks`, one (task, count) pair per joined task. -/
def allTasksOf (jn : List (String × Entry)) : List (String × Nat) :=
  jn.map (fun p => (p.1, p.2.nr))

/-- Lines 197 to 198: `today_tasks`, the (task, count) pairs of the date
groups whose end date is today, with the date-specific count. -/
def todayTasksOf (today : Date) (ps : Pomos) : List (String × Nat) :=
  ps.filterMap (fun p => if p.1.2 = today then some (p.1.1, p.2.nr) else none)

/-- The fallback name used when no task has positive accumulated time. -/
def sentinelName : String := "No task longer than 0 minutes"

/-- Lines 213 to 222: the running `total` over joined entries. -/
def sumTimesF (jn : List (String × Entry)) : Nat :=
  jn.foldl (fun a p => a + p.2.time) 0

/-- Lines 214 to 222: the (longest_name, longest_time) state, replaced
only on strictly greater time. -/
def longestFold : String × Nat → List (String × Entry) → String × Nat
  | acc, [] => acc
  | acc, p :: rest =>
    longestFold (if acc.2 < p.2.time then (p.1, p.2.time) else acc) rest

/-- Lines 227 to 230: one step of the last-days histogram; a group is
added to bucket `days_ago` whenever `days_ago <= 5` (the code has no
lower bound on `days_ago`). -/
def dayWorkStep (today : Date) (acc : List (Int × Nat)) (p : (String × Date) × Entry) :
    List (Int × Nat) :=
  if daysAgo today p.1.2 ≤ 5 then
    updA (daysAgo today p.1.2) (fun n => n + p.2.nr) 0 acc
  else acc

/-- The `day_work` mapping from days-ago to session count. -/
def dayWorkOf (today : Date) (ps : Pomos) : List (Int × Nat) :=
  ps.foldl (dayWorkStep today) []

/-- The aggregate values report computes (the printed text is a direct
rendering of these). -/
structure Agg where
  allTasks : List (String × Nat)
  todayTasks : List (String × Nat)
  totalToday : Nat
  grandTotal : Nat
  longest : String × Nat
  dayWork : List (Int × Nat)
deriving DecidableEq, Repr

/-- Assemble every aggregate view from the `pomos` mapping and the
running today total. -/
def aggFields (today : Date) (pt : Pomos × Nat) : Agg :=
  Agg.mk (allTasksOf (joinOf pt.1)) (todayTasksOf today pt.1) pt.2
    (sumTimesF (joinOf pt.1)) (longestFold (sentinelName, 0) (joinOf pt.1))
    (dayWorkOf today pt.1)

/-- The aggregates of a record sequence (the analysis after parsing). -/
def aggOfRecs (td : Nat) (today : Date) (recs : List SessionRecord) : Agg :=
  aggFields today (pomosAndToday td today recs)

/-- The analysis run on the significant lines (after stripping and
filtering): truncate, group into triples, run the main loop, derive the
aggregate views; `none` models the uncaught timestamp parse exception. -/
def sigAgg (td : Nat) (today : Date) (sig : List String) : Option Agg :=
  (pomosLoop td today (toTriples (truncate3 sig))).map (aggFields today)

/-- The whole `report` function on raw file lines. The reference date
`today` is the value the internal call `datetime.datetime.today().date()`
returns during the run (pomo.py line 165), made explicit as a parameter;
`td` is the `TASK_DURATION` global. -/
def reportAgg (td : Nat) (today : Date) (data : List String) : Option Agg :=
  sigAgg td today (sigLines data)

/-- The default value of the `TASK_DURATION` global. -/
def TASK_DURATION : Nat := 1500

/-- Outcome of the `--analyse` command-line branch (lines 244 to 253). -/
inductive CLIOutcome where
  | success (a : Agg)
  | loadError (msg : String)
  | crash
deriving DecidableEq, Repr

/-- Process exit status of each outcome: 0 after a successful report,
`sys.exit(-1)` when the file cannot be read, and the interpreter status 1
for the uncaught timestamp exception. -/
def exitCode : CLIOutcome → Int
  | CLIOutcome.success _ => 0
  | CLIOutcome.loadError _ => -1
  | CLIOutcome.crash => 1

/-- The `--analyse` branch: read the file (the filesystem is modelled as
a function from paths to optional line lists, `none` meaning IOError),
report the load error with the offending path on failure, otherwise run
report; a timestamp parse failure inside report is an uncaught exception. -/
def analyse (readLines : String → Option (List String)) (td : Nat) (today : Date)
    (path : String) : CLIOutcome :=
  match readLines path with
  | none => CLIOutcome.loadError (("Cannot load \"" ++ path) ++ "\" for analysis.")
  | some data =>
    match reportAgg td today data with
    | none => CLIOutcome.crash
    | some a => CLIOutcome.success a

/-- Number of records with grouping key `k`. -/
def countKey (k : String × Date) (recs : List SessionRecord) : Nat :=
  (recs.filter (fun r => decide (recKey r = k))).length

/-- Sum of the `nr` fields of a mapping with Entry values. -/
def sumNr {κ : Type} : List (κ × Entry) → Nat
  | [] => 0
  | p :: rest => p.2.nr + sumNr rest

/-- Sum of the `time` fields of a mapping with Entry values. -/
def sumTimes {κ : Type} : List (κ × Entry) → Nat
  | [] => 0
  | p :: rest => p.2.time + sumTimes rest

/-- Header total `sum(nr for (task, nr) in tasks)` of print_tasks. -/
def sumCounts (l : List (String × Nat)) : Nat :=
  l.foldl (fun a p => a + p.2) 0

/-- The date groups that bucket `d` of the histogram collects: groups at
exactly `d` days ago, subject to the loop guard `days_ago <= 5`. -/
def bumps (today : Date) (d : Int) (ps : Pomos) : Pomos :=
  ps.filter (fun p => decide (daysAgo today p.1.2 = d) && decide (d ≤ 5))

/-- Keys of an association list, in order. -/
def keysOf {κ α : Type} (l : List (κ × α)) : List κ :=
  l.map Prod.fst

/-- The six significant lines of the specification scenario. -/
def sampleLines : List String :=
  ["Write spec", "2024/01/01 09:00:00", "2024/01/01 09:25:00",
   "Write spec", "2024/01/02 09:00:00", "2024/01/02 09:25:00"]

/-- The scenario reference date 2024/01/02. -/
def dayB : Date := Date.mk 2024 1 2

/-- A log whose single session is dated one day after the reference date. -/
def futureLines : List String :=
  ["Plan ahead", "2024/01/03 09:00:00", "2024/01/03 09:25:00"]

/-- A log whose second line is not a valid timestamp. -/
def badStampLines : List String :=
  ["Write spec", "yesterday morning", "2024/01/01 09:25:00"]

/-- The scenario records in parsed form. -/
def sampleRecs : List SessionRecord :=
  [SessionRecord.mk "Write spec" (DateTime.mk (Date.mk 2024 1 1) 9 0 0)
     (DateTime.mk (Date.mk 2024 1 1) 9 25 0),
   SessionRecord.mk "Write spec" (DateTime.mk (Date.mk 2024 1 2) 9 0 0)
     (DateTime.mk (Date.mk 2024 1 2) 9 25 0)]

/-- The sample lines padded with a comment line, a blank line and
trailing whitespace: same significant content. -/
def sampleLinesPadded : List String :=
  ["# pomo log", "Write spec  ", "2024/01/01 09:00:00", "",
   "2024/01/01 09:25:00", "Write spec", "2024/01/02 09:00:00",
   "2024/01/02 09:25:00", "   "]

/-- Significant lines whose length is 3n+1: the scenario triple followed
by one dangling task line. -/
def dangling4 : List String :=
  ["Write spec", "2024/01/01 09:00:00", "2024/01/01 09:25:00", "Write spec"]

/-! ### Association list lemmas -/

theorem lookupA_updA_self {κ α : Type} [DecidableEq κ] (k : κ) (f : α → α) (v0 : α)
    (l : List (κ × α)) :
    lookupA k (updA k f v0 l) = some (f ((lookupA k l).getD v0)) := by
  induction l with
  | nil => simp [updA, lookupA]
  | cons p rest ih =>
    obtain ⟨k1, v⟩ := p
    by_cases h : k1 = k <;> simp [updA, lookupA, h, ih]

theorem lookupA_updA_ne {κ α : Type} [DecidableEq κ] {k k1 : κ} (h : k1 ≠ k)
    (f : α → α) (v0 : α) (l : List (κ × α)) :
    lookupA k1 (updA k f v0 l) = lookupA k1 l := by
  have h1 : ¬ k = k1 := fun hk => h hk.symm
  induction l with
  | nil => simp [updA, lookupA, h1]
  | cons p rest ih =>
    obtain ⟨k2, v⟩ := p
    by_cases h2 : k2 = k <;> by_cases h3 : k2 = k1 <;>
      simp_all [updA, lookupA]

theorem mem_of_lookupA {κ α : Type} [DecidableEq κ] {k : κ} {v : α}
    {l : List (κ × α)} (h : lookupA k l = some v) : (k, v) ∈ l := by
  induction l with
  | nil => simp [lookupA] at h
  | cons p rest ih =>
    obtain ⟨k1, v1⟩ := p
    by_cases h1 : k1 = k
    · simp [lookupA, h1] at h
      simp [h1, h]
    · simp [lookupA, h1] at h
      simp [ih h]

theorem lookupA_eq_none_iff {κ α : Type} [DecidableEq κ] {k : κ}
    {l : List (κ × α)} : lookupA k l = none ↔ k ∉ keysOf l := by
  induction l with
  | nil => simp [lookupA, keysOf]
  | cons p rest ih =>
    obtain ⟨k1, v1⟩ := p
    by_cases h1 : k1 = k
    · subst h1
      simp [lookupA, keysOf]
    · have h2 : ¬ k = k1 := fun hk => h1 hk.symm
      simp [lookupA, keysOf, h1, h2, ih]

theorem lookupA_of_mem {κ α : Type} [DecidableEq κ] {k : κ} {v : α}
    {l : List (κ × α)} (nd : (keysOf l).Nodup) (h : (k, v) ∈ l) :
    lookupA k l = some v := by
  induction l with
  | nil => simp at h
  | cons p rest ih =>
    obtain ⟨k1, v1⟩ := p
    simp [keysOf] at nd
    rcases List.mem_cons.mp h with h | h
    · obtain ⟨rfl, rfl⟩ := Prod.mk.injEq .. ▸ h
      simp [lookupA]
    · have hk : k1 ≠ k := by
        intro hk
        exact nd.1 v (hk ▸ h)
      simp [lookupA, hk, ih nd.2 h]

theorem keysOf_updA {κ α : Type} [DecidableEq κ] (k : κ) (f : α → α) (v0 : α)
    (l : List (κ × α)) :
    keysOf (updA k f v0 l) = if k ∈ keysOf l then keysOf l else keysOf l ++ [k] := by
  induction l with
  | nil => simp [updA, keysOf]
  | cons p rest ih =>
    obtain ⟨k1, v⟩ := p
    by_cases h : k1 = k
    · simp [updA, keysOf, h]
    · have hne : ¬ k = k1 := fun hk => h hk.symm
      have hku : keysOf (updA k f v0 ((k1, v) :: rest))
          = k1 :: keysOf (updA k f v0 rest) := by
        simp [updA, keysOf, h]
      rw [hku, ih]
      by_cases hm : k ∈ keysOf rest <;>
        · simp only [keysOf] at hm ⊢
          simp [hm, hne]

theorem nodup_keys_updA {κ α : Type} [DecidableEq κ] (k : κ) (f : α → α) (v0 : α)
    {l : List (κ × α)} (nd : (keysOf l).Nodup) :
    (keysOf (updA k f v0 l)).Nodup := by
  rw [keysOf_updA]
  split
  · exact nd
  · next h => simp [List.nodup_append, nd, h]

theorem mem_updA {κ α : Type} [DecidableEq κ] {k : κ} {f : α → α} {v0 : α}
    {l : List (κ × α)} {q : κ × α} (h : q ∈ updA k f v0 l) :
    q ∈ l ∨ ∃ v, q = (k, f v) ∧ (v = v0 ∨ (k, v) ∈ l) := by
  induction l with
  | nil =>
    simp [updA] at h
    exact Or.inr ⟨v0, h, Or.inl rfl⟩
  | cons p rest ih =>
    obtain ⟨k1, v1⟩ := p
    by_cases h1 : k1 = k
    · subst h1
      simp [updA] at h
      rcases h with h | h
      · exact Or.inr ⟨v1, h, Or.inr (by simp)⟩
      · exact Or.inl (by simp [h])
    · simp [updA, h1] at h
      rcases h with h | h
      · exact Or.inl (by simp [h])
      · rcases ih h with h2 | ⟨v, hv, hm⟩
        · exact Or.inl (by simp [h2])
        · refine Or.inr ⟨v, hv, ?_⟩
          rcases hm with hm | hm
          · exact Or.inl hm
          · exact Or.inr (by simp [hm])

/-! ### Sum lemmas -/

theorem sumNr_append {κ : Type} (l1 l2 : List (κ × Entry)) :
    sumNr (l1 ++ l2) = sumNr l1 + sumNr l2 := by
  induction l1 with
  | nil => simp [sumNr]
  | cons p rest ih => simp [sumNr, ih]; omega

theorem sumTimes_append {κ : Type} (l1 l2 : List (κ × Entry)) :
    sumTimes (l1 ++ l2) = sumTimes l1 + sumTimes l2 := by
  induction l1 with
  | nil => simp [sumTimes]
  | cons p rest ih => simp [sumTimes, ih]; omega

theorem sumNr_updA_add {κ : Type} [DecidableEq κ] (k : κ) (m t : Nat)
    (l : List (κ × Entry)) :
    sumNr (updA k (fun e => Entry.mk (e.nr + m) (e.time + t)) (Entry.mk 0 0) l)
      = sumNr l + m := by
  induction l with
  | nil => simp [updA, sumNr]
  | cons p rest ih =>
    obtain ⟨k1, v⟩ := p
    by_cases h : k1 = k <;> simp [updA, sumNr, h, ih] <;> omega

theorem sumTimes_updA_add {κ : Type} [DecidableEq κ] (k : κ) (m t : Nat)
    (l : List (κ × Entry)) :
    sumTimes (updA k (fun e => Entry.mk (e.nr + m) (e.time + t)) (Entry.mk 0 0) l)
      = sumTimes l + t := by
  induction l with
  | nil => simp [updA, sumTimes]
  | cons p rest ih =>
    obtain ⟨k1, v⟩ := p
    by_cases h : k1 = k <;> simp [updA, sumTimes, h, ih] <;> omega

theorem sumNr_pomos_fold (td : Nat) (today : Date) (recs : List SessionRecord) :
    ∀ (acc : Pomos) (tt : Nat),
    sumNr ((recs.foldl (stepPomos td today) (acc, tt)).1) = sumNr acc + recs.length := by
  induction recs with
  | nil => intro acc tt; simp
  | cons r rs ih =>
    intro acc tt
    rw [List.foldl_cons]
    simp only [stepPomos]
    rw [ih, sumNr_updA_add]
    simp [List.length_cons]
    omega

theorem sumTimes_pomos_fold (td : Nat) (today : Date) (recs : List SessionRecord) :
    ∀ (acc : Pomos) (tt : Nat),
    sumTimes ((recs.foldl (stepPomos td today) (acc, tt)).1)
      = sumTimes acc + recs.length * td := by
  induction recs with
  | nil => intro acc tt; simp
  | cons r rs ih =>
    intro acc tt
    rw [List.foldl_cons]
    simp only [stepPomos]
    rw [ih, sumTimes_updA_add]
    simp [List.length_cons, Nat.succ_mul]
    omega

theorem sumNr_joinStep (acc : List (String × Entry)) (p : (String × Date) × Entry) :
    sumNr (joinStep acc p) = sumNr acc + p.2.nr := by
  unfold joinStep
  cases h : lookupA p.1.1 acc with
  | none => rw [sumNr_append]; simp [sumNr]
  | some e => rw [sumNr_updA_add]

theorem sumTimes_joinStep (acc : List (String × Entry)) (p : (String × Date) × Entry) :
    sumTimes (joinStep acc p) = sumTimes acc + p.2.time := by
  unfold joinStep
  cases h : lookupA p.1.1 acc with
  | none => rw [sumTimes_append]; simp [sumTimes]
  | some e => rw [sumTimes_updA_add]

theorem sumNr_joinFold (ps : Pomos) :
    ∀ (acc : List (String × Entry)),
    sumNr (ps.foldl joinStep acc) = sumNr acc + sumNr ps := by
  induction ps with
  | nil => intro acc; simp [sumNr]
  | cons p rest ih =>
    intro acc
    rw [List.foldl_cons, ih, sumNr_joinStep]
    simp [sumNr]
    omega

theorem sumTimes_joinFold (ps : Pomos) :
    ∀ (acc : List (String × Entry)),
    sumTimes (ps.foldl joinStep acc) = sumTimes acc + sumTimes ps := by
  induction ps with
  | nil => intro acc; simp [sumTimes]
  | cons p rest ih =>
    intro acc
    rw [List.foldl_cons, ih, sumTimes_joinStep]
    simp [sumTimes]
    omega

theorem sumNr_joinOf (ps : Pomos) : sumNr (joinOf ps) = sumNr ps := by
  unfold joinOf
  rw [sumNr_joinFold]
  simp [sumNr]

theorem sumTimes_joinOf (ps : Pomos) : sumTimes (joinOf ps) = sumTimes ps := by
  unfold joinOf
  rw [sumTimes_joinFold]
  simp [sumTimes]

theorem sumCounts_allTasks_aux (jn : List (String × Entry)) :
    ∀ a : Nat, (allTasksOf jn).foldl (fun a p => a + p.2) a = a + sumNr jn := by
  induction jn with
  | nil => intro a; simp [allTasksOf, sumNr]
  | cons p rest ih =>
    intro a
    simp only [allTasksOf, List.map_cons, List.foldl_cons]
    simp only [allTasksOf] at ih
    rw [ih]
    simp [sumNr]
    omega

theorem sumCounts_allTasks (jn : List (String × Entry)) :
    sumCounts (allTasksOf jn) = sumNr jn := by
  unfold sumCounts
  rw [sumCounts_allTasks_aux]
  simp

theorem sumTimesF_aux (jn : List (String × Entry)) :
    ∀ a : Nat, jn.foldl (fun a p => a + p.2.time) a = a + sumTimes jn := by
  induction jn with
  | nil => intro a; simp [sumTimes]
  | cons p rest ih =>
    intro a
    rw [List.foldl_cons, ih]
    simp [sumTimes]
    omega

theorem sumTimesF_eq (jn : List (String × Entry)) : sumTimesF jn = sumTimes jn := by
  unfold sumTimesF
  rw [sumTimesF_aux]
  simp

/-! ### Characterization of the pomos mapping -/

theorem countKey_cons_pos {k : String × Date} {r : SessionRecord}
    (rs : List SessionRecord) (h : recKey r = k) :
    countKey k (r :: rs) = countKey k rs + 1 := by
  simp [countKey, h]

theorem countKey_cons_neg {k : String × Date} {r : SessionRecord}
    (rs : List SessionRecord) (h : recKey r ≠ k) :
    countKey k (r :: rs) = countKey k rs := by
  simp [countKey, h]

theorem lookupA_pomos_fold (td : Nat) (today : Date) (k : String × Date)
    (recs : List SessionRecord) :
    ∀ (acc : Pomos) (tt : Nat),
    lookupA k ((recs.foldl (stepPomos td today) (acc, tt)).1) =
      match lookupA k acc with
      | some e =>
        some (Entry.mk (e.nr + countKey k recs) (e.time + countKey k recs * td))
      | none =>
        if countKey k recs = 0 then none
        else some (Entry.mk (countKey k recs) (countKey k recs * td)) := by
  induction recs with
  | nil =>
    intro acc tt
    cases h : lookupA k acc <;> simp [countKey, h]
  | cons r rs ih =>
    intro acc tt
    rw [List.foldl_cons]
    simp only [stepPomos]
    rw [ih]
    by_cases hk : recKey r = k
    · rw [countKey_cons_pos rs hk, hk, lookupA_updA_self]
      cases h : lookupA k acc with
      | none => simp [h, Entry.mk.injEq, Nat.succ_mul]; omega
      | some e => simp [h, Entry.mk.injEq, Nat.succ_mul]; omega
    · have hk2 : k ≠ recKey r := fun h2 => hk h2.symm
      rw [countKey_cons_neg rs hk, lookupA_updA_ne hk2]

theorem lookupA_pomosOf (td : Nat) (today : Date) (recs : List SessionRecord)
    (k : String × Date) :
    lookupA k (pomosOf td today recs) =
      if countKey k recs = 0 then none
      else some (Entry.mk (countKey k recs) (countKey k recs * td)) := by
  unfold pomosOf pomosAndToday
  rw [lookupA_pomos_fold]
  simp [lookupA]

theorem nodup_keys_pomos_fold (td : Nat) (today : Date) (recs : List SessionRecord) :
    ∀ (acc : Pomos) (tt : Nat),
    (keysOf acc).Nodup → (keysOf ((recs.foldl (stepPomos td today) (acc, tt)).1)).Nodup := by
  induction recs with
  | nil => intro acc tt h; exact h
  | cons r rs ih =>
    intro acc tt h
    rw [List.foldl_cons]
    simp only [stepPomos]
    exact ih _ _ (nodup_keys_updA _ _ _ h)

theorem nodup_keys_pomosOf (td : Nat) (today : Date) (recs : List SessionRecord) :
    (keysOf (pomosOf td today recs)).Nodup := by
  unfold pomosOf pomosAndToday
  exact nodup_keys_pomos_fold td today recs [] 0 (by simp [keysOf])

/-! ### Entries of pomos and join_tasks -/

theorem mem_pomosOf_eq (td : Nat) (today : Date) (recs : List SessionRecord)
    {k : String × Date} {e : Entry} (h : (k, e) ∈ pomosOf td today recs) :
    e = Entry.mk (countKey k recs) (countKey k recs * td) ∧ countKey k recs ≠ 0 := by
  have hl := lookupA_of_mem (nodup_keys_pomosOf td today recs) h
  rw [lookupA_pomosOf] at hl
  by_cases hc : countKey k recs = 0
  · rw [if_pos hc] at hl
    exact absurd hl (by simp)
  · rw [if_neg hc] at hl
    exact ⟨(Option.some.injEq .. ▸ hl).symm, hc⟩

theorem join_inv_step (td : Nat) (acc : List (String × Entry))
    (p : (String × Date) × Entry)
    (hacc : ∀ q ∈ acc, q.2.time = q.2.nr * td) (hp : p.2.time = p.2.nr * td) :
    ∀ q ∈ joinStep acc p, q.2.time = q.2.nr * td := by
  intro q hq
  unfold joinStep at hq
  cases hl : lookupA p.1.1 acc with
  | none =>
    rw [hl] at hq
    rcases List.mem_append.mp hq with hq | hq
    · exact hacc q hq
    · simp at hq
      rw [hq]
      exact hp
  | some e0 =>
    rw [hl] at hq
    rcases mem_updA hq with hq | ⟨v, rfl, hv⟩
    · exact hacc q hq
    · rcases hv with rfl | hv
      · simp [hp]
      · have := hacc _ hv
        simp only []
        rw [Nat.add_mul, ← this, ← hp]

theorem join_inv_fold (td : Nat) (ps : Pomos) :
    ∀ (acc : List (String × Entry)),
    (∀ p ∈ ps, p.2.time = p.2.nr * td) → (∀ q ∈ acc, q.2.time = q.2.nr * td) →
    ∀ q ∈ ps.foldl joinStep acc, q.2.time = q.2.nr * td := by
  induction ps with
  | nil => intro acc _ hacc q hq; exact hacc q hq
  | cons p rest ih =>
    intro acc hps hacc q hq
    rw [List.foldl_cons] at hq
    refine ih _ (fun p2 h2 => hps p2 (by simp [h2])) ?_ q hq
    exact join_inv_step td acc p hacc (hps p (by simp))

/-! ### The day_work histogram -/

theorem bumps_cons_hit {today : Date} {d : Int} {p : (String × Date) × Entry}
    (ps : Pomos) (hd : daysAgo today p.1.2 = d) (h5 : d ≤ 5) :
    bumps today d (p :: ps) = p :: bumps today d ps := by
  simp [bumps, hd, h5]

theorem bumps_cons_miss {today : Date} {d : Int} {p : (String × Date) × Entry}
    (ps : Pomos) (h : ¬(daysAgo today p.1.2 = d ∧ d ≤ 5)) :
    bumps today d (p :: ps) = bumps today d ps := by
  by_cases hd : daysAgo today p.1.2 = d
  · have h5 : ¬ d ≤ 5 := fun h5 => h ⟨hd, h5⟩
    simp [bumps, hd, h5]
  · simp [bumps, hd]

theorem lookupA_dayWork_fold (today : Date) (d : Int) (ps : Pomos) :
    ∀ (acc : List (Int × Nat)),
    lookupA d (ps.foldl (dayWorkStep today) acc) =
      match lookupA d acc with
      | some v => some (v + sumNr (bumps today d ps))
      | none =>
        if bumps today d ps = [] then none
        else some (sumNr (bumps today d ps)) := by
  induction ps with
  | nil =>
    intro acc
    cases h : lookupA d acc <;> simp [bumps, h, sumNr]
  | cons p rest ih =>
    intro acc
    rw [List.foldl_cons]
    by_cases h5 : daysAgo today p.1.2 ≤ 5
    · by_cases hd : daysAgo today p.1.2 = d
      · have hd5 : d ≤ 5 := hd ▸ h5
        rw [show dayWorkStep today acc p
              = updA d (fun n => n + p.2.nr) 0 acc by
            simp [dayWorkStep, hd, hd5]]
        rw [ih, lookupA_updA_self, bumps_cons_hit rest hd hd5]
        cases h : lookupA d acc with
        | none => simp [h, sumNr]
        | some v => simp [h, sumNr]; omega
      · rw [show dayWorkStep today acc p
              = updA (daysAgo today p.1.2) (fun n => n + p.2.nr) 0 acc by
            simp [dayWorkStep, h5]]
        have hd2 : d ≠ daysAgo today p.1.2 := fun h2 => hd h2.symm
        rw [ih, lookupA_updA_ne hd2, bumps_cons_miss rest (fun hc => hd hc.1)]
    · rw [show dayWorkStep today acc p = acc by simp [dayWorkStep, h5]]
      rw [ih, bumps_cons_miss rest (fun hc => h5 (hc.1 ▸ hc.2))]

theorem lookupA_dayWorkOf (today : Date) (ps : Pomos) (d : Int) :
    lookupA d (dayWorkOf today ps) =
      if bumps today d ps = [] then none else some (sumNr (bumps today d ps)) := by
  unfold dayWorkOf
  rw [lookupA_dayWork_fold]
  simp [lookupA]

/-! ### The longest-task fold -/

theorem longestFold_cases (l : List (String × Entry)) :
    ∀ (acc : String × Nat),
    (longestFold acc l = acc ∧ ∀ p ∈ l, p.2.time ≤ acc.2)
    ∨ (∃ l1 e l2, l = l1 ++ e :: l2 ∧ longestFold acc l = (e.1, e.2.time)
        ∧ acc.2 < e.2.time ∧ (∀ p ∈ l1, p.2.time < e.2.time)
        ∧ (∀ p ∈ l2, p.2.time ≤ e.2.time)) := by
  induction l with
  | nil =>
    intro acc
    exact Or.inl ⟨rfl, by simp⟩
  | cons p rest ih =>
    intro acc
    by_cases hp : acc.2 < p.2.time
    · have hstep : longestFold acc (p :: rest) = longestFold (p.1, p.2.time) rest := by
        simp [longestFold, hp]
      rcases ih (p.1, p.2.time) with ⟨heq, hall⟩ | ⟨l1, e, l2, hsplit, hres, hlt, h1, h2⟩
      · refine Or.inr ⟨[], p, rest, by simp, ?_, hp, by simp, ?_⟩
        · rw [hstep, heq]
        · intro q hq
          exact hall q hq
      · refine Or.inr ⟨p :: l1, e, l2, by rw [hsplit]; simp, by rw [hstep, hres], ?_, ?_, h2⟩
        · exact lt_trans hp hlt
        · intro q hq
          rcases List.mem_cons.mp hq with rfl | hq
          · exact hlt
          · exact h1 q hq
    · have hstep : longestFold acc (p :: rest) = longestFold acc rest := by
        simp [longestFold, hp]
      rcases ih acc with ⟨heq, hall⟩ | ⟨l1, e, l2, hsplit, hres, hlt, h1, h2⟩
      · refine Or.inl ⟨by rw [hstep, heq], ?_⟩
        intro q hq
        rcases List.mem_cons.mp hq with rfl | hq
        · omega
        · exact hall q hq
      · refine Or.inr ⟨p :: l1, e, l2, by rw [hsplit]; simp, by rw [hstep, hres], hlt, ?_, h2⟩
        intro q hq
        rcases List.mem_cons.mp hq with rfl | hq
        · omega
        · exact h1 q hq

/-! ### Truncation and triple grouping -/

theorem toTriples_take3 {α : Type} : ∀ (l : List α),
    toTriples (l.take (l.length - l.length % 3)) = toTriples l
  | [] => rfl
  | [a] => rfl
  | [a, b] => rfl
  | a :: b :: c :: rest => by
    have ih := toTriples_take3 rest
    have harith : (a :: b :: c :: rest).length - (a :: b :: c :: rest).length % 3
        = (rest.length - rest.length % 3) + 3 := by
      simp [List.length_cons]
      omega
    rw [harith]
    have htake : (a :: b :: c :: rest).take ((rest.length - rest.length % 3) + 3)
        = a :: b :: c :: rest.take (rest.length - rest.length % 3) := by
      simp [List.take_succ_cons]
    rw [htake]
    simp only [toTriples]
    rw [ih]

theorem toTriples_truncate3 (l : List String) :
    toTriples (truncate3 l) = toTriples l := by
  unfold truncate3
  split
  · exact toTriples_take3 l
  · rfl

/-! ### Separating parsing from accumulation -/

theorem pomosLoop_eq_aux (td : Nat) (today : Date)
    (ts : List (String × String × String)) :
    ∀ (st : Pomos × Nat),
    ts.foldlM (accumLoop td today) st
      = (parseRecs ts).map (fun recs => recs.foldl (stepPomos td today) st) := by
  induction ts with
  | nil =>
    intro st
    simp [parseRecs]
  | cons t ts ih =>
    intro st
    rw [List.foldlM_cons]
    cases hp : parseTriple t with
    | none =>
      have ha : accumLoop td today st t = none := by simp [accumLoop, hp]
      rw [ha]
      simp [parseRecs, hp]
    | some r =>
      have ha : accumLoop td today st t = some (stepPomos td today st r) := by
        simp [accumLoop, hp]
      rw [ha]
      simp only [Option.bind_eq_bind, Option.some_bind]
      rw [ih]
      cases hm : parseRecs ts with
      | none => simp [parseRecs, hp, hm]
      | some recs => simp [parseRecs, hp, hm]

theorem pomosLoop_eq (td : Nat) (today : Date)
    (ts : List (String × String × String)) :
    pomosLoop td today ts
      = (parseRecs ts).map (fun recs => pomosAndToday td today recs) := by
  unfold pomosLoop pomosAndToday
  exact pomosLoop_eq_aux td today ts (([], 0) : Pomos × Nat)

theorem reportAgg_eq (td : Nat) (today : Date) (data : List String) :
    reportAgg td today data = (parseRecs (triplesOf data)).map (aggOfRecs td today) := by
  unfold reportAgg sigAgg triplesOf aggOfRecs
  rw [pomosLoop_eq]
  cases parseRecs (toTriples (truncate3 (sigLines data))) <;> simp

theorem parseRecs_eq_none {ts : List (String × String × String)}
    {t : String × String × String} (ht : t ∈ ts) (hp : parseTriple t = none) :
    parseRecs ts = none := by
  induction ts with
  | nil => simp at ht
  | cons a ts ih =>
    rcases List.mem_cons.mp ht with rfl | ht
    · simp [parseRecs, hp]
    · cases ha : parseTriple a with
      | none => simp [parseRecs, ha]
      | some r => simp [parseRecs, ha, ih ht]

theorem parseTriple_none_of {t : String × String × String}
    (h : load_time t.2.1 = none ∨ load_time t.2.2 = none) :
    parseTriple t = none := by
  unfold parseTriple
  cases hs : load_time t.2.1 with
  | none => rfl
  | some st =>
    cases he : load_time t.2.2 with
    | none => rfl
    | some en =>
      rw [hs] at h
      rw [he] at h
      rcases h with h | h <;> simp at h

/-! ### Claims -/

/-- Claim C2: on the six-line scenario input with TASK_DURATION = 1500 and
reference date 2024/01/02, the aggregation produces
allTasks = [("Write spec", 2)], todayTasks = [("Write spec", 1)],
totalToday = 1500 seconds, grandTotal = 3000 seconds and
longest = ("Write spec", 3000 seconds). -/
theorem c2_scenario :
    (reportAgg 1500 dayB sampleLines).map Agg.allTasks = some [("Write spec", 2)]
    ∧ (reportAgg 1500 dayB sampleLines).map Agg.todayTasks = some [("Write spec", 1)]
    ∧ (reportAgg 1500 dayB sampleLines).map Agg.totalToday = some 1500
    ∧ (reportAgg 1500 dayB sampleLines).map Agg.grandTotal = some 3000
    ∧ (reportAgg 1500 dayB sampleLines).map Agg.longest = some ("Write spec", 3000) := by
  refine ⟨?_, ?_, ?_, ?_, ?_⟩ <;> rfl

/-- Claim C1 counterexample: with reference date 2024/01/02 and a single
session whose end date is 2024/01/03, daysAgo is -1, outside [0, 5], yet
the loop guard `days_ago <= 5` admits it and the entry contributes its
count to bucket -1 of the day histogram, so the histogram is not confined
to the buckets 0 to 5. -/
theorem c1_counterexample :
    (reportAgg 1500 dayB futureLines).map Agg.dayWork = some [(-1, 1)] := by
  rfl

/-- Claim C1 amended: a date group contributes its count to bucket
daysAgo exactly when daysAgo is at most 5 — there is no lower bound, so
future-dated sessions land in negative buckets — and every bucket above 5
is absent: the bucket at `d` holds the summed counts of the groups at
exactly `d` days ago subject only to the guard `days_ago <= 5`. -/
theorem c1_buckets (td : Nat) (today : Date) (recs : List SessionRecord) (d : Int) :
    (lookupA d (aggOfRecs td today recs).dayWork =
      if bumps today d (pomosOf td today recs) = [] then none
      else some (sumNr (bumps today d (pomosOf td today recs))))
    ∧ (5 < d → lookupA d (aggOfRecs td today recs).dayWork = none) := by
  have hdw : (aggOfRecs td today recs).dayWork = dayWorkOf today (pomosOf td today recs) := rfl
  constructor
  · rw [hdw, lookupA_dayWorkOf]
  · intro h5
    rw [hdw, lookupA_dayWorkOf]
    have hb : bumps today d (pomosOf td today recs) = [] := by
      unfold bumps
      refine List.filter_eq_nil_iff.mpr ?_
      intro p hp
      simp
      intro _
      omega
    rw [if_pos hb]

/-- Witness for the amended C1: bucket 7 is absent from the scenario
histogram. -/
theorem c1_buckets_witness :
    5 < (7 : Int) ∧ lookupA (7 : Int) (aggOfRecs 1500 dayB sampleRecs).dayWork = none :=
  ⟨by decide, (c1_buckets 1500 dayB sampleRecs 7).2 (by decide)⟩

/-- Claim C9 counterexample: report reads today from the system clock
inside itself (pomo.py line 165, `datetime.datetime.today().date()`),
so with the clock value made explicit, two runs of report on the very
same line sequence produce different aggregates once the clock date
differs — the aggregates are not a function of the record sequence and a
caller-injected date, because no date is injected. -/
theorem c9_counterexample :
    reportAgg 1500 dayB sampleLines ≠ reportAgg 1500 (Date.mk 2024 1 3) sampleLines := by
  decide

/-- Claim C9 amended: today is read from the system clock inside report
rather than injected; modelling that clock read as the explicit parameter
`today`, the aggregation is deterministic and depends only on the parsed
significant triples and that date: two runs with the same significant
content and the same clock date give identical aggregates. -/
theorem c9_determinism (td : Nat) (today : Date) (d1 d2 : List String)
    (h : triplesOf d1 = triplesOf d2) :
    reportAgg td today d1 = reportAgg td today d2 := by
  show (pomosLoop td today (triplesOf d1)).map (aggFields today)
      = (pomosLoop td today (triplesOf d2)).map (aggFields today)
  rw [h]

/-- Witness for the amended C9: comment lines, blank lines and trailing
whitespace do not change the significant triples, and the padded input
yields the same aggregates as the plain one under the same clock date. -/
theorem c9_determinism_witness :
    triplesOf sampleLinesPadded = triplesOf sampleLines
    ∧ reportAgg 1500 dayB sampleLinesPadded = reportAgg 1500 dayB sampleLines :=
  ⟨by decide, c9_determinism 1500 dayB sampleLinesPadded sampleLines (by decide)⟩

/-- Claim C3: a significant-line list of length 3n+1 or 3n+2 produces the
same aggregates as the same list with the trailing 1 or 2 lines removed;
the partial trailing record is dropped (after a printed warning) and
processing continues rather than failing. -/
theorem c3_truncation (td : Nat) (today : Date) (sig : List String)
    (h : sig.length % 3 ≠ 0) :
    sigAgg td today sig = sigAgg td today (sig.take (sig.length - sig.length % 3)) := by
  unfold sigAgg
  rw [toTriples_truncate3, toTriples_truncate3, toTriples_take3]

/-- Witness for C3: four significant lines give the same aggregates as
their first complete record alone. -/
theorem c3_truncation_witness :
    dangling4.length % 3 ≠ 0
    ∧ sigAgg 1500 dayB dangling4
        = sigAgg 1500 dayB (dangling4.take (dangling4.length - dangling4.length % 3)) :=
  ⟨by decide, c3_truncation 1500 dayB dangling4 (by decide)⟩

/-- Claim C4: longest is the joined task entry with strictly greatest
total time, chosen by strict greater-than comparison in iteration order,
so the first of any tie is kept; when no entry has positive time (in
particular on empty input) longest is the sentinel (sentinelName, 0). -/
theorem c4_longest (td : Nat) (today : Date) (recs : List SessionRecord) :
    ((∀ p ∈ joinOf (pomosOf td today recs), p.2.time = 0) →
      (aggOfRecs td today recs).longest = (sentinelName, 0))
    ∧ ((∃ p ∈ joinOf (pomosOf td today recs), 0 < p.2.time) →
      ∃ l1 e l2, joinOf (pomosOf td today recs) = l1 ++ e :: l2
        ∧ (aggOfRecs td today recs).longest = (e.1, e.2.time)
        ∧ (∀ p ∈ l1, p.2.time < e.2.time)
        ∧ (∀ p ∈ joinOf (pomosOf td today recs), p.2.time ≤ e.2.time)) := by
  have hlg : (aggOfRecs td today recs).longest
      = longestFold (sentinelName, 0) (joinOf (pomosOf td today recs)) := rfl
  constructor
  · intro hz
    rcases longestFold_cases (joinOf (pomosOf td today recs)) (sentinelName, 0) with
      ⟨heq, _⟩ | ⟨l1, e, l2, hsplit, hres, hlt, h1, h2⟩
    · rw [hlg, heq]
    · exfalso
      simp at hlt
      have := hz e (by rw [hsplit]; simp)
      omega
  · intro h
    obtain ⟨q, hq, hqt⟩ := h
    rcases longestFold_cases (joinOf (pomosOf td today recs)) (sentinelName, 0) with
      ⟨heq, hall⟩ | ⟨l1, e, l2, hsplit, hres, hlt, h1, h2⟩
    · exfalso
      have := hall q hq
      simp at this
      omega
    · refine ⟨l1, e, l2, hsplit, by rw [hlg, hres], h1, ?_⟩
      intro p hp
      rw [hsplit] at hp
      rcases List.mem_append.mp hp with hp | hp
      · exact le_of_lt (h1 p hp)
      · rcases List.mem_cons.mp hp with rfl | hp
        · exact le_refl _
        · exact h2 p hp

/-- Witness for C4: on empty input longest is the sentinel; on the
scenario records the decomposition exists. -/
theorem c4_longest_witness :
    (aggOfRecs 1500 dayB ([] : List SessionRecord)).longest = (sentinelName, 0)
    ∧ ∃ l1 e l2, joinOf (pomosOf 1500 dayB sampleRecs) = l1 ++ e :: l2
        ∧ (aggOfRecs 1500 dayB sampleRecs).longest = (e.1, e.2.time)
        ∧ (∀ p ∈ l1, p.2.time < e.2.time)
        ∧ (∀ p ∈ joinOf (pomosOf 1500 dayB sampleRecs), p.2.time ≤ e.2.time) :=
  ⟨(c4_longest 1500 dayB []).1 (by decide), (c4_longest 1500 dayB sampleRecs).2 (by decide)⟩

/-- Claim C5: every session is charged the fixed nominal TASK_DURATION
rather than end minus start, so every date group entry and every joined
task entry satisfies time = count times TASK_DURATION. -/
theorem c5_fixed_duration (td : Nat) (today : Date) (recs : List SessionRecord)
    (k : String × Date) (e : Entry) (k1 : String) (e1 : Entry)
    (hp : (k, e) ∈ pomosOf td today recs)
    (hj : (k1, e1) ∈ joinOf (pomosOf td today recs)) :
    e.time = e.nr * td ∧ e1.time = e1.nr * td := by
  constructor
  · obtain ⟨he, _⟩ := mem_pomosOf_eq td today recs hp
    rw [he]
  · have hinv : ∀ p ∈ pomosOf td today recs, p.2.time = p.2.nr * td := by
      intro p hpm
      obtain ⟨pk, pe⟩ := p
      obtain ⟨he, _⟩ := mem_pomosOf_eq td today recs hpm
      rw [he]
    have hjf := join_inv_fold td (pomosOf td today recs) []
      hinv (by simp) (k1, e1)
    unfold joinOf at hj
    exact hjf hj

/-- Witness for C5: the scenario date group of 2024/01/01 holds one
session and 1500 seconds, the joined entry two sessions and 3000. -/
theorem c5_fixed_duration_witness :
    ((("Write spec", Date.mk 2024 1 1), Entry.mk 1 1500) ∈ pomosOf 1500 dayB sampleRecs)
    ∧ (("Write spec", Entry.mk 2 3000) ∈ joinOf (pomosOf 1500 dayB sampleRecs))
    ∧ ((1500 : Nat) = 1 * 1500 ∧ (3000 : Nat) = 2 * 1500) :=
  ⟨by decide, by decide,
   c5_fixed_duration 1500 dayB sampleRecs ("Write spec", Date.mk 2024 1 1)
     (Entry.mk 1 1500) ("Write spec") (Entry.mk 2 3000) (by decide) (by decide)⟩

/-- Claim C6: todayTasks lists exactly the date groups whose end date is
today, and each listed count is the number of records of that task ending
today — the date-specific count, not the folded all-time count. -/
theorem c6_today_tasks (td : Nat) (today : Date) (recs : List SessionRecord)
    (task : String) (n : Nat) :
    (task, n) ∈ (aggOfRecs td today recs).todayTasks ↔
      (0 < countKey (task, today) recs ∧ n = countKey (task, today) recs) := by
  have ht : (aggOfRecs td today recs).todayTasks
      = todayTasksOf today (pomosOf td today recs) := rfl
  rw [ht]
  unfold todayTasksOf
  rw [List.mem_filterMap]
  constructor
  · rintro ⟨⟨⟨pt, pd⟩, pe⟩, hp, hif⟩
    simp only [] at hif
    split at hif
    · next hd =>
      simp at hif
      obtain ⟨h1, h2⟩ := hif
      rw [h1, hd] at hp
      obtain ⟨he, hc⟩ := mem_pomosOf_eq td today recs hp
      constructor
      · omega
      · rw [← h2, he]
    · simp at hif
  · rintro ⟨hc, rfl⟩
    have hne : countKey (task, today) recs ≠ 0 := by omega
    refine ⟨((task, today),
      Entry.mk (countKey (task, today) recs) (countKey (task, today) recs * td)), ?_, ?_⟩
    · apply mem_of_lookupA
      rw [lookupA_pomosOf, if_neg hne]
    · simp

/-- Claim C7: a start or end timestamp field that fails to parse makes
the whole analysis fail: report yields no aggregates at all (so no
partial report mixing valid and invalid records), and through the
analyse branch the failure is an uncaught exception. -/
theorem c7_parse_fatal (td : Nat) (today : Date) (data : List String)
    (h : ∃ t ∈ triplesOf data, load_time t.2.1 = none ∨ load_time t.2.2 = none) :
    reportAgg td today data = none
    ∧ ∀ (fs : String → Option (List String)) (p : String),
        fs p = some data → analyse fs td today p = CLIOutcome.crash := by
  obtain ⟨t, ht, hl⟩ := h
  have hnone : reportAgg td today data = none := by
    rw [reportAgg_eq, parseRecs_eq_none ht (parseTriple_none_of hl)]
    rfl
  refine ⟨hnone, ?_⟩
  intro fs p hp
  have hred : analyse fs td today p
      = match reportAgg td today data with
        | none => CLIOutcome.crash
        | some a => CLIOutcome.success a := by
    unfold analyse
    rw [hp]
  rw [hred, hnone]

/-- Witness for C7: a log whose second line is prose parses to nothing. -/
theorem c7_parse_fatal_witness :
    (∃ t ∈ triplesOf badStampLines, load_time t.2.1 = none ∨ load_time t.2.2 = none)
    ∧ reportAgg 1500 dayB badStampLines = none :=
  ⟨by decide, (c7_parse_fatal 1500 dayB badStampLines (by decide)).1⟩

/-- Claim C8: when the log path cannot be opened, the analyse branch
reports an error message built around the offending path, exits with the
nonzero status of sys.exit(-1), and produces no report. -/
theorem c8_unreadable (fs : String → Option (List String)) (td : Nat) (today : Date)
    (p : String) (h : fs p = none) :
    analyse fs td today p
      = CLIOutcome.loadError (("Cannot load \"" ++ p) ++ "\" for analysis.")
    ∧ exitCode (analyse fs td today p) = -1
    ∧ ∀ a : Agg, analyse fs td today p ≠ CLIOutcome.success a := by
  have ha : analyse fs td today p
      = CLIOutcome.loadError (("Cannot load \"" ++ p) ++ "\" for analysis.") := by
    unfold analyse
    rw [h]
  refine ⟨ha, ?_, ?_⟩
  · rw [ha]
    rfl
  · intro a
    rw [ha]
    simp

/-- Witness for C8: an always-failing filesystem makes analyse report
the load error for the requested path with exit status -1. -/
theorem c8_unreadable_witness :
    analyse (fun _ => (none : Option (List String))) 1500 dayB ("pomo.log")
      = CLIOutcome.loadError (("Cannot load \"" ++ "pomo.log") ++ "\" for analysis.")
    ∧ exitCode (analyse (fun _ => (none : Option (List String))) 1500 dayB ("pomo.log")) = -1 :=
  ⟨(c8_unreadable (fun _ => (none : Option (List String))) 1500 dayB ("pomo.log") rfl).1,
   (c8_unreadable (fun _ => (none : Option (List String))) 1500 dayB ("pomo.log") rfl).2.1⟩

/-- Claim C10: the grand total equals the sum of the allTasks counts
times TASK_DURATION, which equals the number of parsed records times
TASK_DURATION — it carries no information beyond the record count. -/
theorem c10_grand_total (td : Nat) (today : Date) (recs : List SessionRecord) :
    (aggOfRecs td today recs).grandTotal
      = sumCounts (aggOfRecs td today recs).allTasks * td
    ∧ (aggOfRecs td today recs).grandTotal = recs.length * td := by
  have hg : (aggOfRecs td today recs).grandTotal
      = sumTimesF (joinOf (pomosOf td today recs)) := rfl
  have ha : (aggOfRecs td today recs).allTasks
      = allTasksOf (joinOf (pomosOf td today recs)) := rfl
  have h2 : (aggOfRecs td today recs).grandTotal = recs.length * td := by
    rw [hg, sumTimesF_eq, sumTimes_joinOf]
    unfold pomosOf pomosAndToday
    rw [sumTimes_pomos_fold]
    simp [sumTimes]
  refine ⟨?_, h2⟩
  rw [h2, ha, sumCounts_allTasks, sumNr_joinOf]
  unfold pomosOf pomosAndToday
  rw [sumNr_pomos_fold]
  simp [sumNr]
